import Mathlib

/-!
Verification of the directory-listing and navigation core of the iced-fm
file picker (src/filepicker.rs).

The program is a thin event-driven layer over direct filesystem calls.
We shallowly embed it as follows:

* Paths are Unicode strings (Lean `String`), matching the program, which
  converts every path to a Rust `String` immediately after obtaining it.
* The filesystem and the standard-library path operations it delegates to
  (`Path::parent`, `Path::file_name`, `fs::read_dir`, `Path::metadata`,
  `Path::is_file`) are an abstract environment `FsEnv`; each call that can
  fail returns an `Option`.  A `read_dir` listing is
  `Option (List (Option String))`: `none` is whole-enumeration failure,
  and each element is either an `Ok` entry (its `entry.path()` string) or
  an `Err` entry (`none`).
* Fallible repository code (the `unwrap`/`expect` calls on `file_name`)
  returns `Option`: a `none` result models a panic.
* `FsEnv.readDir` is the decoded view, in which every `Ok` entry path is
  already a valid Unicode string.  The raw view `RawFsEnv.readDirRaw`
  exposes the `Ok` entry paths as undecoded OS strings whose
  `to_str()` may fail, and `get_dir_content_raw` keeps the
  `entry.path().to_str().unwrap()` panic of the loop body, so that the
  behaviour on a child whose name is not valid UTF-8 is represented.

The repository functions `ContentData::new`, `get_dir_content`,
`FilePicker::new` and `FilePicker::update` are translated clause by clause
below over this environment.
-/

namespace IcedFm

/-- Abstract filesystem environment: the external collaborators used by
filepicker.rs.  `parent` and `fileName` model the `Path` methods of the
same names; `readDir` models `fs::read_dir` (outer `none` = enumeration
failure, inner `none` = a per-entry `Err`, inner `some p` = an `Ok` entry
whose `entry.path()` converts to the string `p`); `metadataLen` models
`Path::metadata().len()`; `isFile` models `Path::is_file`, which returns
`false` when the underlying metadata call fails. -/
structure FsEnv where
  parent : String → Option String
  fileName : String → Option String
  readDir : String → Option (List (Option String))
  metadataLen : String → Option Nat
  isFile : String → Bool

/-- The `ContentData` struct of filepicker.rs. -/
structure ContentData where
  is_parent : Bool
  path : String
  name : String
  size : Nat
  deriving Repr, DecidableEq

/-- The `Content` enum of filepicker.rs. -/
inductive Content where
  | File : ContentData → Content
  | Directory : ContentData → Content
  | Corrupt : Content
  deriving Repr, DecidableEq

/-- The `Content::size` method of filepicker.rs. -/
def Content.size : Content → Nat
  | Content.File files => files.size
  | Content.Directory dirs => dirs.size
  | Content.Corrupt => 0

/-- The size computation of `ContentData::new`:
`match Path::new(&path).metadata() { Ok(meta) => meta.len() / 1024, Err(_) => 0 }`. -/
def metaSize (env : FsEnv) (path : String) : Nat :=
  match env.metadataLen path with
  | some len => len / 1024
  | none => 0

/-- The `ContentData::new` constructor of filepicker.rs.  The name is
`".."` for the parent entry, otherwise the file name of the path; the
`unwrap`/`expect` on a missing file name is modelled by returning `none`
(a panic). -/
def ContentData.new (env : FsEnv) (path : String) (parent : Bool) :
    Option ContentData :=
  match (if parent then some ".." else env.fileName path) with
  | none => none
  | some name =>
      some { is_parent := parent, path := path, name := name,
             size := metaSize env path }

/-- One iteration of the loop body of `get_dir_content`: an `Ok` entry is
pushed as `File` or `Directory` according to `is_file`, an `Err` entry is
pushed as `Corrupt`. -/
def childEntry (env : FsEnv) (e : Option String) : Option Content :=
  match e with
  | some path =>
      if env.isFile path then
        (ContentData.new env path false).map Content.File
      else
        (ContentData.new env path false).map Content.Directory
  | none => some Content.Corrupt

/-- The loop of `get_dir_content` over the entries returned by
`fs::read_dir`, in order; a `none` result models a panic inside the loop. -/
def mapChildren (env : FsEnv) : List (Option String) → Option (List Content)
  | [] => some []
  | e :: es =>
      match childEntry env e, mapChildren env es with
      | some c, some cs => some (c :: cs)
      | _, _ => none

/-- The part of `get_dir_content` after the parent entry is pushed: the
`match fs::read_dir(cwd)` with its `Ok` loop and its `Err` arm pushing a
single `Corrupt`. -/
def dirChildren (env : FsEnv) (cwd : String) : Option (List Content) :=
  match env.readDir cwd with
  | some entries => mapChildren env entries
  | none => some [Content.Corrupt]

/-- The `get_dir_content` function of filepicker.rs: the parent entry
(the parent path, or the input itself when there is no parent) followed by
the children. -/
def get_dir_content (env : FsEnv) (cwd : String) : Option (List Content) :=
  match ContentData.new env ((env.parent cwd).getD cwd) true,
        dirChildren env cwd with
  | some first, some rest => some (Content.Directory first :: rest)
  | _, _ => none

/-- The `FilePicker` application state: `path` and `content`. -/
structure FilePicker where
  path : String
  content : List Content
  deriving Repr, DecidableEq

/-- The `Message` enum of filepicker.rs. -/
inductive Message where
  | PathInput : String → Message
  | PathChange : Message
  | ContentClicked : Content → Message
  | Sort : Message

/-- The `FilePicker::new` constructor: `path` is the process working
directory and `content` is the scan of it. -/
def FilePicker.new (env : FsEnv) (cwd : String) : Option FilePicker :=
  (get_dir_content env cwd).map fun c => { path := cwd, content := c }

/-- The `FilePicker::update` handler of filepicker.rs, one clause per
message arm. -/
def FilePicker.update (env : FsEnv) (self : FilePicker) :
    Message → Option FilePicker
  | Message.PathInput path => some { self with path := path }
  | Message.PathChange =>
      (get_dir_content env self.path).map fun c => { self with content := c }
  | Message.ContentClicked content =>
      match content with
      | Content.Directory dir =>
          (get_dir_content env dir.path).map fun c =>
            { path := dir.path, content := c }
      | Content.File file => some { self with path := file.path }
      | Content.Corrupt => some self
  | Message.Sort => some self

/-- States reachable from the initial state by any sequence of messages. -/
inductive Reachable (env : FsEnv) : FilePicker → Prop where
  | init : ∀ cwd s, FilePicker.new env cwd = some s → Reachable env s
  | step : ∀ s m s', Reachable env s → FilePicker.update env s m = some s' →
      Reachable env s'

/-- Well-formedness of an environment at a directory, reflecting the
standard-library guarantee that the path of a directory entry produced by
`read_dir` always has a file name: every `Ok` child of `cwd` has a file
name. -/
def childrenNamed (env : FsEnv) (cwd : String) : Bool :=
  ((env.readDir cwd).getD []).all fun e =>
    match e with
    | some p => (env.fileName p).isSome
    | none => true

/-- A small concrete environment used to instantiate the theorems: a root
`/` containing a directory `/a`, which contains a 10240-byte file `/a/x`,
an unreadable entry, and an empty subdirectory `/a/b`; the path `/bad`
cannot be enumerated. -/
def envA : FsEnv where
  parent p :=
    if p = "/" then none
    else if p = "/a" then some "/"
    else if p = "/a/x" then some "/a"
    else if p = "/a/b" then some "/a"
    else none
  fileName p :=
    if p = "/a" then some "a"
    else if p = "/a/x" then some "x"
    else if p = "/a/b" then some "b"
    else none
  readDir p :=
    if p = "/" then some [some "/a"]
    else if p = "/a" then some [some "/a/x", none, some "/a/b"]
    else if p = "/a/b" then some []
    else none
  metadataLen p :=
    if p = "/" then some 4096
    else if p = "/a" then some 4096
    else if p = "/a/x" then some 10240
    else if p = "/a/b" then some 4096
    else none
  isFile p := p = "/a/x"

/-- The scan of `/a` in `envA`, written out. -/
def listA : List Content :=
  [Content.Directory ⟨true, "/", "..", 4⟩,
   Content.File ⟨false, "/a/x", "x", 10⟩,
   Content.Corrupt,
   Content.Directory ⟨false, "/a/b", "b", 4⟩]

/-- The scan of the root `/` in `envA`, written out. -/
def listRoot : List Content :=
  [Content.Directory ⟨true, "/", "..", 4⟩,
   Content.Directory ⟨false, "/a", "a", 4⟩]

/-- The scan of the empty directory `/a/b` in `envA`, written out. -/
def listAB : List Content :=
  [Content.Directory ⟨true, "/a", "..", 4⟩]

/-- The parent-link entry that `get_dir_content` pushes first: the parent
of the input path (or the input itself at the root), named `".."`. -/
def parentEntry (env : FsEnv) (cwd : String) : ContentData :=
  ⟨true, (env.parent cwd).getD cwd, "..",
   metaSize env ((env.parent cwd).getD cwd)⟩

/-- Total description of one loop iteration of `get_dir_content` when the
child path carries a file name: the entry that `childEntry` produces. -/
def childEntryT (env : FsEnv) (e : Option String) : Content :=
  match e with
  | some path =>
      if env.isFile path then
        Content.File ⟨false, path, (env.fileName path).getD "", metaSize env path⟩
      else
        Content.Directory ⟨false, path, (env.fileName path).getD "", metaSize env path⟩
  | none => Content.Corrupt

/-- A directory entry as returned by `fs::read_dir` before any decoding:
only the result of `entry.path().to_str()` is observable, and it is
`none` when the underlying OS string is not valid UTF-8. -/
structure RawEntry where
  toStr : Option String

/-- Raw filesystem environment: `FsEnv` together with the undecoded view
of `fs::read_dir`, in which an `Ok` entry carries an OS path that may
fail UTF-8 decoding. -/
structure RawFsEnv extends FsEnv where
  readDirRaw : String → Option (List (Option RawEntry))

/-- One iteration of the loop of `get_dir_content` over raw entries: an
`Err` entry is pushed as `Corrupt`; an `Ok` entry is first decoded by
`entry.path().to_str().unwrap()`, a panic (`none`) when the child name is
not valid UTF-8, and then dispatched exactly as `childEntry`. -/
def childEntryRaw (env : FsEnv) (e : Option RawEntry) : Option Content :=
  match e with
  | some entry =>
      match entry.toStr with
      | some path => childEntry env (some path)
      | none => none
  | none => some Content.Corrupt

/-- The loop of `get_dir_content` over raw entries, in order; a `none`
result models a panic inside the loop, including the decode panic. -/
def mapChildrenRaw (env : FsEnv) :
    List (Option RawEntry) → Option (List Content)
  | [] => some []
  | e :: es =>
      match childEntryRaw env e, mapChildrenRaw env es with
      | some c, some cs => some (c :: cs)
      | _, _ => none

/-- The part of `get_dir_content` after the parent entry is pushed, over
the raw view of `fs::read_dir`. -/
def dirChildrenRaw (env : RawFsEnv) (cwd : String) : Option (List Content) :=
  match env.readDirRaw cwd with
  | some entries => mapChildrenRaw env.toFsEnv entries
  | none => some [Content.Corrupt]

/-- The `get_dir_content` function over the raw view: identical to
`get_dir_content` except that the enumerated children arrive as
undecoded OS strings, keeping the `to_str().unwrap()` decode panic of the
loop body. -/
def get_dir_content_raw (env : RawFsEnv) (cwd : String) :
    Option (List Content) :=
  match ContentData.new env.toFsEnv ((env.parent cwd).getD cwd) true,
        dirChildrenRaw env cwd with
  | some first, some rest => some (Content.Directory first :: rest)
  | _, _ => none

/-- Well-formedness of a raw environment at a directory: every `Ok` child
has a valid-UTF-8 path that carries a file name. -/
def childrenDecode (env : RawFsEnv) (cwd : String) : Bool :=
  ((env.readDirRaw cwd).getD []).all fun e =>
    match e with
    | some entry =>
        match entry.toStr with
        | some p => (env.fileName p).isSome
        | none => false
    | none => true

/-- A raw environment whose directory `/u` enumerates successfully and
holds a single successfully read child whose OS path is not valid
UTF-8. -/
def envU : RawFsEnv where
  parent p := if p = "/u" then some "/" else none
  fileName _ := none
  readDir _ := none
  metadataLen _ := none
  isFile _ := false
  readDirRaw p := if p = "/u" then some [some ⟨none⟩] else none

/-- The concrete environment together with the raw view of its listings:
every child path of `envA` is valid UTF-8. -/
def envARaw : RawFsEnv where
  toFsEnv := envA
  readDirRaw p :=
    if p = "/" then some [some ⟨some "/a"⟩]
    else if p = "/a" then
      some [some ⟨some "/a/x"⟩, none, some ⟨some "/a/b"⟩]
    else if p = "/a/b" then some []
    else none

/-- ContentData.new with the parent flag set always succeeds and builds
the parent-link data. -/
theorem ContentData.new_parent (env : FsEnv) (p : String) :
    ContentData.new env p true = some ⟨true, p, "..", metaSize env p⟩ := rfl

/-- get_dir_content is the parent entry consed onto the children listing,
whenever the latter exists. -/
theorem get_dir_content_eq (env : FsEnv) (cwd : String) :
    get_dir_content env cwd =
      (dirChildren env cwd).map
        fun rest => Content.Directory (parentEntry env cwd) :: rest := by
  unfold get_dir_content
  rw [ContentData.new_parent]
  cases dirChildren env cwd <;> rfl

/-- Every successful scan starts with the parent entry. -/
theorem get_dir_content_head (env : FsEnv) (cwd : String) (l : List Content)
    (h : get_dir_content env cwd = some l) :
    ∃ rest, l = Content.Directory (parentEntry env cwd) :: rest := by
  rw [get_dir_content_eq] at h
  cases hd : dirChildren env cwd with
  | none => rw [hd] at h; simp at h
  | some rest =>
      rw [hd, Option.map_some'] at h
      exact ⟨rest, (Option.some.inj h).symm⟩

/-- ContentData.new with the parent flag clear succeeds exactly when the
path has a file name, and then stores that name. -/
theorem ContentData.new_child (env : FsEnv) (p n : String)
    (hf : env.fileName p = some n) :
    ContentData.new env p false = some ⟨false, p, n, metaSize env p⟩ := by
  unfold ContentData.new
  rw [show (if false then some ".." else env.fileName p) = env.fileName p
        from rfl, hf]

/-- When the child path has a file name, the loop body succeeds and
produces exactly the entry described by childEntryT. -/
theorem childEntry_named (env : FsEnv) (p : String)
    (h : (env.fileName p).isSome) :
    childEntry env (some p) = some (childEntryT env (some p)) := by
  cases hf : env.fileName p with
  | none => rw [hf] at h; simp at h
  | some n =>
      simp only [childEntry, childEntryT, ContentData.new_child env p n hf,
        hf, Option.getD_some]
      cases hif : env.isFile p <;> simp [hif]

/-- When every Ok child has a file name, the loop over the children
succeeds and maps each child pointwise via childEntryT. -/
theorem mapChildren_named (env : FsEnv) (es : List (Option String))
    (h : ∀ e ∈ es,
      (match e with
       | some p => (env.fileName p).isSome
       | none => true) = true) :
    mapChildren env es = some (es.map (childEntryT env)) := by
  induction es with
  | nil => rfl
  | cons e es ih =>
      have he := h e (List.mem_cons_self _ _)
      have hes := fun x hx => h x (List.mem_cons_of_mem _ hx)
      unfold mapChildren
      rw [ih hes]
      cases e with
      | none => rfl
      | some p =>
          rw [childEntry_named env p (by simpa using he)]
          rfl

/-- C1: for every readable directory path, the scan returns a sequence
whose first element is a `Directory` entry with the parent flag set whose
path is the parent of the input path, and when the input has no parent
(filesystem root) that path is the input path itself. -/
theorem scan_first_entry_parent_link (env : FsEnv) (p : String)
    (es : List (Option String)) (_hread : env.readDir p = some es)
    (l : List Content) (hscan : get_dir_content env p = some l) :
    ∃ d rest, l = Content.Directory d :: rest ∧ d.is_parent = true ∧
      (∀ q, env.parent p = some q → d.path = q) ∧
      (env.parent p = none → d.path = p) := by
  obtain ⟨rest, hrest⟩ := get_dir_content_head env p l hscan
  refine ⟨parentEntry env p, rest, hrest, rfl, ?_, ?_⟩
  · intro q hq; simp [parentEntry, hq]
  · intro hq; simp [parentEntry, hq]

/-- C1 witness at the directory `/a` of the concrete environment. -/
theorem scan_first_entry_parent_link_witness :
    ∃ d rest, listA = Content.Directory d :: rest ∧ d.is_parent = true ∧
      (∀ q, envA.parent "/a" = some q → d.path = q) ∧
      (envA.parent "/a" = none → d.path = "/a") :=
  scan_first_entry_parent_link envA "/a" [some "/a/x", none, some "/a/b"]
    rfl listA rfl

/-- C2: for a directory path whose enumeration fails, the scan returns
exactly two entries, the parent link followed by one `Corrupt`; and the
`PathChange` handler (path submitted) with such a current path replaces
the content with exactly that two-element listing, keeping the path. -/
theorem scan_unreadable_two_entries (env : FsEnv) (p : String)
    (hread : env.readDir p = none) :
    get_dir_content env p =
      some [Content.Directory (parentEntry env p), Content.Corrupt] ∧
    ∀ c0 : List Content,
      FilePicker.update env ⟨p, c0⟩ Message.PathChange =
        some ⟨p, [Content.Directory (parentEntry env p), Content.Corrupt]⟩ := by
  have hscan : get_dir_content env p =
      some [Content.Directory (parentEntry env p), Content.Corrupt] := by
    rw [get_dir_content_eq]
    unfold dirChildren
    rw [hread]
    rfl
  refine ⟨hscan, fun c0 => ?_⟩
  have e : FilePicker.update env ⟨p, c0⟩ Message.PathChange =
      (get_dir_content env p).map fun c => ⟨p, c⟩ := rfl
  rw [e, hscan, Option.map_some']

/-- C2 witness at the unreadable path `/bad` of the concrete environment. -/
theorem scan_unreadable_two_entries_witness :
    get_dir_content envA "/bad" =
      some [Content.Directory (parentEntry envA "/bad"), Content.Corrupt] ∧
    ∀ c0 : List Content,
      FilePicker.update envA ⟨"/bad", c0⟩ Message.PathChange =
        some ⟨"/bad",
          [Content.Directory (parentEntry envA "/bad"), Content.Corrupt]⟩ :=
  scan_unreadable_two_entries envA "/bad" rfl

/-- get_dir_content_raw is the parent entry consed onto the raw children
listing, whenever the latter exists. -/
theorem get_dir_content_raw_eq (env : RawFsEnv) (cwd : String) :
    get_dir_content_raw env cwd =
      (dirChildrenRaw env cwd).map
        fun rest =>
          Content.Directory (parentEntry env.toFsEnv cwd) :: rest := by
  unfold get_dir_content_raw
  rw [ContentData.new_parent]
  cases dirChildrenRaw env cwd <;> rfl

/-- When every Ok child decodes to a valid-UTF-8 path with a file name,
the raw loop over the children succeeds, and a per-entry failure yields a
Corrupt element. -/
theorem mapChildrenRaw_decoded (env : FsEnv) (es : List (Option RawEntry))
    (h : ∀ e ∈ es,
      (match e with
       | some entry =>
           match RawEntry.toStr entry with
           | some p => (env.fileName p).isSome
           | none => false
       | none => true) = true) :
    ∃ cs, mapChildrenRaw env es = some cs ∧
      (none ∈ es → Content.Corrupt ∈ cs) := by
  induction es with
  | nil => exact ⟨[], rfl, by simp⟩
  | cons e es ih =>
      have he := h e (List.mem_cons_self _ _)
      obtain ⟨cs, hcs, hmem⟩ := ih fun x hx => h x (List.mem_cons_of_mem _ hx)
      cases e with
      | none =>
          refine ⟨Content.Corrupt :: cs, ?_,
            fun _ => List.mem_cons_self _ _⟩
          unfold mapChildrenRaw
          rw [hcs]
          rfl
      | some entry =>
          cases ht : entry.toStr with
          | none => simp [ht] at he
          | some p =>
              simp only [ht] at he
              have hc := childEntry_named env p (by simpa using he)
              refine ⟨childEntryT env (some p) :: cs, ?_, fun hn => ?_⟩
              · unfold mapChildrenRaw childEntryRaw
                dsimp only
                rw [ht]
                dsimp only
                rw [hc, hcs]
              · rcases List.mem_cons.mp hn with h' | h'
                · exact Option.noConfusion h'
                · exact List.mem_cons_of_mem _ (hmem h')

/-- C3 counterexample: the scan does not always return a sequence: in
envU the enumeration of `/u` succeeds and yields one successfully read
child, but the child OS path is not valid UTF-8, so the decode unwrap in
the loop body panics and get_dir_content returns no sequence at all. -/
theorem scan_panics_on_undecodable_name :
    envU.readDirRaw "/u" = some [some ⟨none⟩] ∧
    get_dir_content_raw envU "/u" = none :=
  ⟨rfl, rfl⟩

/-- C3 amended: for every input path whose successfully enumerated
children all have valid-UTF-8 paths carrying file names, the scan
returns a listing, and both the whole-enumeration failure and each
per-entry failure are encoded as a `Corrupt` element of that listing
rather than escaping; a child whose OS path is not valid UTF-8 instead
makes the scan panic, as the counterexample shows. -/
theorem scan_decoded_never_raises (env : RawFsEnv) (p : String)
    (hwf : childrenDecode env p = true) :
    ∃ l, get_dir_content_raw env p = some l ∧
      (env.readDirRaw p = none → Content.Corrupt ∈ l) ∧
      ∀ es, env.readDirRaw p = some es → none ∈ es →
        Content.Corrupt ∈ l := by
  rw [get_dir_content_raw_eq]
  cases hread : env.readDirRaw p with
  | none =>
      refine ⟨Content.Directory (parentEntry env.toFsEnv p) ::
        [Content.Corrupt], ?_, fun _ => ?_, fun es hes => ?_⟩
      · unfold dirChildrenRaw; rw [hread]; rfl
      · simp
      · exact Option.noConfusion hes
  | some es =>
      unfold childrenDecode at hwf
      rw [hread] at hwf
      have hall := List.all_eq_true.mp hwf
      obtain ⟨cs, hcs, hmem⟩ := mapChildrenRaw_decoded env.toFsEnv es hall
      refine ⟨Content.Directory (parentEntry env.toFsEnv p) :: cs, ?_,
        fun hn => ?_, fun es' hes' hmem' => ?_⟩
      · unfold dirChildrenRaw
        rw [hread]
        dsimp only
        rw [hcs, Option.map_some']
      · exact Option.noConfusion hn
      · cases Option.some.inj hes'
        exact List.mem_cons_of_mem _ (hmem hmem')

/-- C3 witness at the directory `/a` of the concrete raw environment. -/
theorem scan_decoded_never_raises_witness :
    ∃ l, get_dir_content_raw envARaw "/a" = some l ∧
      (envARaw.readDirRaw "/a" = none → Content.Corrupt ∈ l) ∧
      ∀ es, envARaw.readDirRaw "/a" = some es → none ∈ es →
        Content.Corrupt ∈ l :=
  scan_decoded_never_raises envARaw "/a" rfl

/-- C4 counterexample: at the file `/a/x` of the concrete environment the
metadata call reports 10240 bytes, yet the stored size field is 10, so
the size field does not equal the metadata byte count. -/
theorem size_field_not_byte_count :
    ContentData.new envA "/a/x" false = some ⟨false, "/a/x", "x", 10⟩ ∧
    envA.metadataLen "/a/x" = some 10240 ∧ (10 : Nat) ≠ 10240 :=
  ⟨rfl, rfl, by decide⟩

/-- C4 amended: the size field of every produced entry is 0 when the
metadata lookup for its path fails, and otherwise is the metadata byte
count divided by 1024 (integer kilobytes); the same formula applies to
directory entries (the reported value, never a recursive sum). -/
theorem size_field_kilobytes (env : FsEnv) (p : String) (parent : Bool)
    (d : ContentData) (h : ContentData.new env p parent = some d) :
    (env.metadataLen p = none → d.size = 0) ∧
    ∀ len, env.metadataLen p = some len → d.size = len / 1024 := by
  unfold ContentData.new at h
  cases hn : (if parent then some ".." else env.fileName p) with
  | none => rw [hn] at h; cases h
  | some name =>
      rw [hn] at h
      cases Option.some.inj h
      constructor
      · intro hm; simp [metaSize, hm]
      · intro len hm; simp [metaSize, hm]

/-- C4 witness at the file `/a/x` of the concrete environment. -/
theorem size_field_kilobytes_witness :
    (envA.metadataLen "/a/x" = none →
      (⟨false, "/a/x", "x", 10⟩ : ContentData).size = 0) ∧
    ∀ len, envA.metadataLen "/a/x" = some len →
      (⟨false, "/a/x", "x", 10⟩ : ContentData).size = len / 1024 :=
  size_field_kilobytes envA "/a/x" false ⟨false, "/a/x", "x", 10⟩ rfl

/-- C5: for a readable directory the scan is the parent entry followed by
the pointwise, order-preserving image of the enumerated children, where a
successfully read child becomes a `File` or `Directory` entry for its
path according to its filesystem kind and a failed child becomes a
`Corrupt` entry at that position. -/
theorem scan_children_in_order (env : FsEnv) (p : String)
    (es : List (Option String)) (hread : env.readDir p = some es)
    (hwf : childrenNamed env p = true) :
    get_dir_content env p =
      some (Content.Directory (parentEntry env p) ::
        es.map (childEntryT env)) ∧
    List.Forall₂ (fun e c =>
        (e = none → c = Content.Corrupt) ∧
        ∀ q, e = some q →
          (env.isFile q = true → ∃ cd, c = Content.File cd ∧ cd.path = q) ∧
          (env.isFile q = false →
            ∃ cd, c = Content.Directory cd ∧ cd.path = q))
      es (es.map (childEntryT env)) := by
  constructor
  · unfold childrenNamed at hwf
    rw [hread] at hwf
    have hall := List.all_eq_true.mp hwf
    rw [get_dir_content_eq]
    unfold dirChildren
    rw [hread]
    dsimp only
    rw [mapChildren_named env es hall, Option.map_some']
  · have hpt : ∀ e,
        (e = none → childEntryT env e = Content.Corrupt) ∧
        ∀ q, e = some q →
          (env.isFile q = true →
            ∃ cd, childEntryT env e = Content.File cd ∧ cd.path = q) ∧
          (env.isFile q = false →
            ∃ cd, childEntryT env e = Content.Directory cd ∧ cd.path = q) := by
      intro e
      cases e with
      | none =>
          exact ⟨fun _ => rfl, fun q hq => Option.noConfusion hq⟩
      | some r =>
          refine ⟨fun h => Option.noConfusion h, fun q hq => ?_⟩
          cases Option.some.inj hq
          constructor
          · intro hf
            exact ⟨⟨false, r, (env.fileName r).getD "", metaSize env r⟩,
              by simp [childEntryT, hf], rfl⟩
          · intro hf
            exact ⟨⟨false, r, (env.fileName r).getD "", metaSize env r⟩,
              by simp [childEntryT, hf], rfl⟩
    clear hread hwf
    induction es with
    | nil => exact List.Forall₂.nil
    | cons e es ih => exact List.Forall₂.cons (hpt e) ih

/-- C5 witness at the directory `/a` of the concrete environment. -/
theorem scan_children_in_order_witness :
    get_dir_content envA "/a" =
      some (Content.Directory (parentEntry envA "/a") ::
        [some "/a/x", none, some "/a/b"].map (childEntryT envA)) ∧
    List.Forall₂ (fun e c =>
        (e = none → c = Content.Corrupt) ∧
        ∀ q, e = some q →
          (envA.isFile q = true → ∃ cd, c = Content.File cd ∧ cd.path = q) ∧
          (envA.isFile q = false →
            ∃ cd, c = Content.Directory cd ∧ cd.path = q))
      [some "/a/x", none, some "/a/b"]
      ([some "/a/x", none, some "/a/b"].map (childEntryT envA)) :=
  scan_children_in_order envA "/a" [some "/a/x", none, some "/a/b"] rfl rfl

/-- C6: clicking a `Directory` entry that is not a self-reference of the
current path sets the path to the entry path and replaces the content
with the scan of that path. -/
theorem click_directory_navigates (env : FsEnv) (s : FilePicker)
    (dir : ContentData) (_hne : dir.path ≠ s.path)
    (l : List Content) (h : get_dir_content env dir.path = some l) :
    FilePicker.update env s (Message.ContentClicked (Content.Directory dir)) =
      some ⟨dir.path, l⟩ := by
  have e : FilePicker.update env s
      (Message.ContentClicked (Content.Directory dir)) =
      (get_dir_content env dir.path).map fun c => ⟨dir.path, c⟩ := rfl
  rw [e, h, Option.map_some']

/-- C6 witness: clicking the `/a` entry from a state at the root. -/
theorem click_directory_navigates_witness :
    FilePicker.update envA ⟨"/", listRoot⟩
        (Message.ContentClicked (Content.Directory ⟨false, "/a", "a", 4⟩)) =
      some ⟨"/a", listA⟩ :=
  click_directory_navigates envA ⟨"/", listRoot⟩ ⟨false, "/a", "a", 4⟩
    (by decide) listA rfl

/-- C7: clicking a `File` entry sets the path to that file path and
leaves the content unchanged; no rescan occurs. -/
theorem click_file_selects (env : FsEnv) (s : FilePicker)
    (f : ContentData) :
    FilePicker.update env s (Message.ContentClicked (Content.File f)) =
      some ⟨f.path, s.content⟩ := rfl

/-- C8: round trip — starting from a state whose path is the directory d,
clicking a child directory entry (a directory whose path has parent d)
and then clicking the parent-link entry at the head of the resulting
listing returns the path to d. -/
theorem round_trip_parent (env : FsEnv) (d : String) (s : FilePicker)
    (_hs : s.path = d) (cdir : ContentData)
    (hpar : env.parent cdir.path = some d)
    (l1 : List Content) (h1 : get_dir_content env cdir.path = some l1)
    (l2 : List Content) (h2 : get_dir_content env d = some l2) :
    ∃ e rest,
      FilePicker.update env s
          (Message.ContentClicked (Content.Directory cdir)) =
        some ⟨cdir.path, l1⟩ ∧
      l1 = Content.Directory e :: rest ∧ e.is_parent = true ∧ e.path = d ∧
      FilePicker.update env ⟨cdir.path, l1⟩
          (Message.ContentClicked (Content.Directory e)) = some ⟨d, l2⟩ := by
  obtain ⟨rest, hrest⟩ := get_dir_content_head env cdir.path l1 h1
  have hpe : (parentEntry env cdir.path).path = d := by
    simp [parentEntry, hpar]
  refine ⟨parentEntry env cdir.path, rest, ?_, hrest, rfl, hpe, ?_⟩
  · have e : FilePicker.update env s
        (Message.ContentClicked (Content.Directory cdir)) =
        (get_dir_content env cdir.path).map fun c => ⟨cdir.path, c⟩ := rfl
    rw [e, h1, Option.map_some']
  · have e : FilePicker.update env ⟨cdir.path, l1⟩
        (Message.ContentClicked
          (Content.Directory (parentEntry env cdir.path))) =
        (get_dir_content env (parentEntry env cdir.path).path).map
          fun c => ⟨(parentEntry env cdir.path).path, c⟩ := rfl
    rw [e, hpe, h2, Option.map_some']

/-- C8 witness: from `/a`, into the child `/a/b` and back via its parent
link. -/
theorem round_trip_parent_witness :
    ∃ e rest,
      FilePicker.update envA ⟨"/a", listA⟩
          (Message.ContentClicked
            (Content.Directory ⟨false, "/a/b", "b", 4⟩)) =
        some ⟨"/a/b", listAB⟩ ∧
      listAB = Content.Directory e :: rest ∧ e.is_parent = true ∧
      e.path = "/a" ∧
      FilePicker.update envA ⟨"/a/b", listAB⟩
          (Message.ContentClicked (Content.Directory e)) =
        some ⟨"/a", listA⟩ :=
  round_trip_parent envA "/a" ⟨"/a", listA⟩ rfl ⟨false, "/a/b", "b", 4⟩
    rfl listAB rfl listA rfl

/-- C9: in every reachable state — the initial state and every state
obtained from it by a sequence of messages — the content is non-empty and
its first element is the synthesized parent-navigation `Directory` entry
(parent flag set, named ".."). -/
theorem reachable_head_parent (env : FsEnv) (s : FilePicker)
    (h : Reachable env s) :
    ∃ d rest, s.content = Content.Directory d :: rest ∧
      d.is_parent = true ∧ d.name = ".." := by
  induction h with
  | init cwd s hnew =>
      unfold FilePicker.new at hnew
      cases hg : get_dir_content env cwd with
      | none => rw [hg] at hnew; cases hnew
      | some l =>
          rw [hg, Option.map_some'] at hnew
          obtain ⟨rest, hrest⟩ := get_dir_content_head env cwd l hg
          cases Option.some.inj hnew
          exact ⟨parentEntry env cwd, rest, hrest, rfl, rfl⟩
  | step s m s' _ hstep ih =>
      cases m with
      | PathInput t =>
          cases Option.some.inj hstep
          exact ih
      | PathChange =>
          cases hg : get_dir_content env s.path with
          | none =>
              rw [FilePicker.update, hg] at hstep
              cases hstep
          | some l =>
              rw [FilePicker.update, hg, Option.map_some'] at hstep
              obtain ⟨rest, hrest⟩ := get_dir_content_head env s.path l hg
              cases Option.some.inj hstep
              exact ⟨parentEntry env s.path, rest, hrest, rfl, rfl⟩
      | ContentClicked c =>
          cases c with
          | Directory dir =>
              cases hg : get_dir_content env dir.path with
              | none =>
                  have e : FilePicker.update env s
                      (Message.ContentClicked (Content.Directory dir)) =
                      (get_dir_content env dir.path).map
                        fun c => ⟨dir.path, c⟩ := rfl
                  rw [e, hg] at hstep
                  cases hstep
              | some l =>
                  have e : FilePicker.update env s
                      (Message.ContentClicked (Content.Directory dir)) =
                      (get_dir_content env dir.path).map
                        fun c => ⟨dir.path, c⟩ := rfl
                  rw [e, hg, Option.map_some'] at hstep
                  obtain ⟨rest, hrest⟩ :=
                    get_dir_content_head env dir.path l hg
                  cases Option.some.inj hstep
                  exact ⟨parentEntry env dir.path, rest, hrest, rfl, rfl⟩
          | File f =>
              cases Option.some.inj hstep
              exact ih
          | Corrupt =>
              cases Option.some.inj hstep
              exact ih
      | «Sort» =>
          cases Option.some.inj hstep
          exact ih

/-- C9 witness at the initial state over the concrete environment. -/
theorem reachable_head_parent_witness :
    ∃ d rest,
      (⟨"/a", listA⟩ : FilePicker).content = Content.Directory d :: rest ∧
      d.is_parent = true ∧ d.name = ".." :=
  reachable_head_parent envA ⟨"/a", listA⟩
    (Reachable.init "/a" ⟨"/a", listA⟩ rfl)

/-- C10: the update handler performs no self-reference check — clicking
any `Directory` entry sets the path to the entry path and rescans it; in
particular at the filesystem root (a path with no parent) the parent-link
entry is self-referential and clicking it rescans the same directory,
replacing the content with a fresh scan, rather than being a no-op. -/
theorem click_directory_always_rescans (env : FsEnv) (p : String)
    (hroot : env.parent p = none) (l : List Content)
    (hscan : get_dir_content env p = some l) :
    (∀ (st : FilePicker) (dir : ContentData),
        FilePicker.update env st
            (Message.ContentClicked (Content.Directory dir)) =
          (get_dir_content env dir.path).map fun c => ⟨dir.path, c⟩) ∧
    ∃ d rest, l = Content.Directory d :: rest ∧ d.is_parent = true ∧
      d.path = p ∧
      ∀ st : FilePicker,
        FilePicker.update env st
            (Message.ContentClicked (Content.Directory d)) =
          some ⟨p, l⟩ := by
  obtain ⟨rest, hrest⟩ := get_dir_content_head env p l hscan
  have hpe : (parentEntry env p).path = p := by simp [parentEntry, hroot]
  refine ⟨fun st dir => rfl, parentEntry env p, rest, hrest, rfl, hpe,
    fun st => ?_⟩
  have e : FilePicker.update env st
      (Message.ContentClicked (Content.Directory (parentEntry env p))) =
      (get_dir_content env (parentEntry env p).path).map
        fun c => ⟨(parentEntry env p).path, c⟩ := rfl
  rw [e, hpe, hscan, Option.map_some']

/-- C10 witness at the root of the concrete environment. -/
theorem click_directory_always_rescans_witness :
    (∀ (st : FilePicker) (dir : ContentData),
        FilePicker.update envA st
            (Message.ContentClicked (Content.Directory dir)) =
          (get_dir_content envA dir.path).map fun c => ⟨dir.path, c⟩) ∧
    ∃ d rest, listRoot = Content.Directory d :: rest ∧
      d.is_parent = true ∧ d.path = "/" ∧
      ∀ st : FilePicker,
        FilePicker.update envA st
            (Message.ContentClicked (Content.Directory d)) =
          some ⟨"/", listRoot⟩ :=
  click_directory_always_rescans envA "/" rfl listRoot rfl

end IcedFm
